import Mathlib

/-!
# Verification of the statusphere example application core

A shallow embedding of the core of the statusphere example application:
the status feed store (`src/store.rs`), the publish path (`src/status.rs`),
the session bridge (`src/oauth.rs`, `src/login.rs`), the ingestion
transform (`src/ingester.rs`) and the display-date rule (`src/home.rs`).

Timestamps (`Datetime` values, stored as RFC3339 text whose textual order
agrees with chronological order) are modelled as natural numbers; DIDs are
modelled by their string form.  The SQLite table backing the status feed
store is modelled as a list of rows whose `uri` column is the primary key;
the upsert statement used by `StatusStore::insert` is modelled as
full-row replacement on a `uri` conflict.  External collaborators (the
OAuth client's `restore`, serde deserialization, DID well-formedness checking,
the remote `create_record` call) are modelled as explicit oracle
parameters, so the theorems hold for every behaviour of the collaborator.
-/

namespace Statusphere

/-- A row of the status table (`Status` in `src/store.rs`): columns
`uri` (primary key), `author_did`, `status`, `created_at`, `indexed_at`. -/
structure Status where
  uri : String
  author_did : String
  status : String
  created_at : Nat
  indexed_at : Nat
deriving Repr, DecidableEq

/-- Errors of the store layer (`Error` in `src/store.rs`), restricted to the
variants produced by the modelled operations. -/
inductive StoreError where
  | invalidTableName (name : String)
  | invalidDid (did : String)
deriving Repr, DecidableEq

/-- `StatusStore::insert` (`src/store.rs`): the SQL statement
`insert into ... on conflict(uri) do update set author_did = excluded.author_did, ...`
replaces the whole conflicting row, otherwise appends a new row. -/
def insertStatus (table : List Status) (s : Status) : List Status :=
  if table.any (fun r => r.uri == s.uri) then
    table.map (fun r => if r.uri == s.uri then s else r)
  else
    table ++ [s]

/-- `is_valid_table_name` (`src/store.rs`): non-empty, first character ASCII
alphabetic, remaining characters ASCII alphanumeric or underscore.
(Lean's `Char.isAlpha`/`Char.isAlphanum` are the ASCII-range checks, matching
Rust's `is_ascii_alphabetic`/`is_ascii_alphanumeric`.) -/
def is_valid_table_name (name : String) : Bool :=
  match name.data with
  | [] => false
  | first :: rest => first.isAlpha && rest.all (fun c => c.isAlphanum || c == '_')

/-- A constructed status feed store handle (`StatusStore` in `src/store.rs`);
holds the validated table name.  All query-issuing operations are functions
of a `StatusStore` value, so no query can be issued for an identity on which
`StatusStore.new` failed. -/
structure StatusStore where
  table_name : String
deriving Repr, DecidableEq

/-- `StatusStore::new` (`src/store.rs`): validates the table identity and
fails with `Error::InvalidTableName` before any query is built. -/
def StatusStore.new (table_name : String) : Except StoreError StatusStore :=
  if is_valid_table_name table_name then .ok ⟨table_name⟩
  else .error (.invalidTableName table_name)

/-- The spec's wording of a valid table identity: non-empty, first character
alphabetic, every remaining character alphanumeric or underscore.  Stated
independently of `is_valid_table_name` to compare the two. -/
def validIdentitySpec (name : String) : Prop :=
  match name.data with
  | [] => False
  | first :: rest => first.isAlpha = true ∧ ∀ c ∈ rest, c.isAlphanum = true ∨ c = '_'

/-- The `where_clause` built by `StatusStore::fetch` (`src/store.rs`):
`author.map(|did| format!("where author_did = \"{}\"", did.as_str())).unwrap_or(String::new())`.
The author string is interpolated into the SQL text inside double quotes;
it is not bound as a parameter. -/
def buildWhereClause (author : Option String) : String :=
  match author with
  | some did => "where author_did = \"" ++ did ++ "\""
  | none => ""

/-- SQL-side reading of the built where clause: the double-quoted token is
read as a string literal running from the opening quote to the next quote,
which must end the clause.  Returns `none` when the clause does not have
this shape (e.g. when the interpolated author itself contained a quote). -/
def extractQuoted (clause : String) : Option String :=
  if ((clause.data.dropWhile (fun c => c != '"')).drop 1).dropWhile
      (fun c => c != '"') = ['"'] then
    some (String.mk (((clause.data.dropWhile (fun c => c != '"')).drop 1).takeWhile
      (fun c => c != '"')))
  else none

/-- Row filter denoted by the where clause: the empty clause keeps every
row; `where author_did = "a"` keeps rows whose `author_did` equals `a`;
a malformed clause (unparseable quoted literal) matches no row. -/
def evalWhereClause (clause : String) (s : Status) : Bool :=
  if clause = "" then true
  else
    match extractQuoted clause with
    | some a => s.author_did == a
    | none => false

/-- The comparison realising `order by indexed_at desc`: `a` may come
before `b` when `b.indexed_at ≤ a.indexed_at`. -/
def statusLE (a b : Status) : Bool := b.indexed_at ≤ a.indexed_at

/-- `StatusStore::fetch` (`src/store.rs`): select rows matching the built
where clause, `order by indexed_at desc`, `limit count`. -/
def fetch (table : List Status) (author : Option String) (count : Nat) : List Status :=
  ((table.filter (evalWhereClause (buildWhereClause author))).mergeSort statusLE).take count

/-- `StatusStore::fetch_n` (`src/store.rs`) delegates to `fetch`. -/
def fetch_n (table : List Status) (author : Option String) (count : Nat) : List Status :=
  fetch table author count

/-- `StatusStore::fetch_one` (`src/store.rs`): `fetch(author, 1)` then
`results.pop()` (the last element of the at-most-one-element vector). -/
def fetch_one (table : List Status) (author : Option String) : Option Status :=
  (fetch table author 1).getLast?

/-- `choose_date` (`src/home.rs`): the date displayed for a status. -/
def choose_date (created_at indexed_at : Nat) : Nat :=
  if created_at < indexed_at then created_at else indexed_at

/-- Failure of the remote `create_record` call in `post_status`
(`src/status.rs`); the message stands for the remote error detail. -/
inductive RemoteError where
  | recordCreate (msg : String)
deriving Repr, DecidableEq

/-- Outcome of `post_status` (`src/status.rs`): redirect to
`/?error=logged_out` when no session agent, propagate the remote failure,
or redirect to `/` on success. -/
inductive PostOutcome where
  | redirectLoggedOut
  | failed (e : RemoteError)
  | redirectHome
deriving Repr, DecidableEq

/-- `post_status` (`src/status.rs`).  `agentDid` is the result of
`session_agent` (none means not logged in); `createRecord` is the outcome
of the remote `com.atproto.repo.create_record` call, an oracle returning
the canonical `uri` on success; `createdNow` is the `Datetime::now()` put
into the record payload and `indexedNow` the `Datetime::now()` stamped at
mirror time.  The local mirror insert happens only after, and only if, the
remote call succeeded. -/
def post_status (agentDid : Option String) (createRecord : Except RemoteError String)
    (statusText : String) (createdNow indexedNow : Nat) (table : List Status) :
    PostOutcome × List Status :=
  match agentDid with
  | none => (.redirectLoggedOut, table)
  | some did =>
    match createRecord with
    | .error e => (.failed e, table)
    | .ok uri =>
      (.redirectHome,
        insertStatus table
          { uri := uri, author_did := did, status := statusText,
            created_at := createdNow, indexed_at := indexedNow })

/-- A restored agent (`Agent::new(session)` in `src/oauth.rs`), identified
by its DID. -/
structure OAuthAgent where
  did : String
deriving Repr, DecidableEq

/-- Outcome of `state.oauth_client.restore(&cs.did)` (`src/oauth.rs`):
a live session, the `SessionRegistry` error raised when no provider
session is remembered for the identity, or any other remote failure. -/
inductive RestoreOutcome where
  | restored (agent : OAuthAgent)
  | sessionRegistryError (msg : String)
  | otherError (msg : String)
deriving Repr, DecidableEq

/-- Result of `session_agent` (`src/oauth.rs`): `Ok(Some(agent))`,
`Ok(None)` (anonymous) or `Err(Error::Restore(..))`. -/
inductive SessionAgentResult where
  | agent (a : OAuthAgent)
  | anonymous
  | err (msg : String)
deriving Repr, DecidableEq

/-- `session_agent` (`src/oauth.rs`): `clientSession` is the DID bound to
the local tower session under key `sid` (none when unbound); `restore` is
the OAuth client's restore capability, an oracle.  An unbound handle and a
`SessionRegistry` failure both yield anonymous; every other restore
failure is propagated as `Error::Restore`. -/
def session_agent (clientSession : Option String)
    (restore : String → RestoreOutcome) : SessionAgentResult :=
  match clientSession with
  | none => .anonymous
  | some did =>
    match restore did with
    | .restored a => .agent a
    | .sessionRegistryError _ => .anonymous
    | .otherError m => .err m

/-- Outcome of `oauth_callback` (`src/login.rs`): `Error::MissingDid`,
`Error::SessionAlreadyExists`, or redirect to `/` after binding. -/
inductive CallbackOutcome where
  | errMissingDid
  | errSessionAlreadyExists
  | redirectRoot
deriving Repr, DecidableEq

/-- `oauth_callback` (`src/login.rs`): `sessionDid` is the DID of the
OAuth session obtained from the callback (none yields `MissingDid`);
`clientSession` is the DID already bound under `sid`, if any.  Returns the
outcome together with the resulting `sid` binding: an already-bound handle
is a `SessionAlreadyExists` conflict and the binding is left unchanged;
an unbound handle gets the new DID inserted. -/
def oauth_callback (sessionDid : Option String) (clientSession : Option String) :
    CallbackOutcome × Option String :=
  match sessionDid with
  | none => (.errMissingDid, clientSession)
  | some did =>
    match clientSession with
    | some _ => (.errSessionAlreadyExists, clientSession)
    | none => (.redirectRoot, some did)

/-- The record payload of a status commit event
(`xyz.statusphere.status` `RecordData`, used in `src/ingester.rs`). -/
structure RecordData where
  status : String
  created_at : Nat
deriving Repr, DecidableEq

/-- A flattened commit event for the watched collection as delivered to
the consumer in `src/ingester.rs`: repository authority (`did`),
collection NSID, record key, and the decoded record payload. -/
structure FlattenedCommitEvent where
  did : String
  collection : String
  rkey : String
  record : RecordData
deriving Repr, DecidableEq

/-- `TryFrom<FlattenedCommitEvent<RecordData>> for StoreStatus`
(`src/ingester.rs`): reconstructs `uri = at://{did}/{collection}/{rkey}`,
validates the author DID (`Did::new`, an external well-formedness check modelled by
the oracle `didValid`), takes `created_at` from the record payload and
stamps `indexed_at = Datetime::now()` (the parameter `now`).  A malformed
DID yields `Error::InvalidDid`. -/
def statusTryFrom (didValid : String → Bool) (now : Nat) (e : FlattenedCommitEvent) :
    Except StoreError Status :=
  if didValid e.did then
    .ok { uri := "at://" ++ e.did ++ "/" ++ e.collection ++ "/" ++ e.rkey,
          author_did := e.did, status := e.record.status,
          created_at := e.record.created_at, indexed_at := now }
  else .error (.invalidDid e.did)

/-- `StatusConsumer::consume` (`src/ingester.rs`): transform the event and
insert the resulting status into the store; a transform failure aborts the
consumption with that error and nothing is inserted. -/
def consume (didValid : String → Bool) (now : Nat) (e : FlattenedCommitEvent)
    (table : List Status) : Except StoreError (List Status) :=
  match statusTryFrom didValid now e with
  | .error err => .error err
  | .ok s => .ok (insertStatus table s)

/-- One iteration of the ingester's message loop (`src/ingester.rs`): a
processing error is logged (`error!`) and the loop continues with the
store unchanged; it does not crash. -/
def messageLoopStep (didValid : String → Bool) (now : Nat) (e : FlattenedCommitEvent)
    (table : List Status) : List Status :=
  match consume didValid now e table with
  | .error _ => table
  | .ok t => t

/-- Error of the generic keyed store `get` (`oauth_store!` in
`src/store.rs`), restricted to the variant reachable in the model:
`Error::Deserialization`. -/
inductive KVError where
  | deserializationError (msg : String)
deriving Repr, DecidableEq

/-- `get` of the generated `oauth_store!` keyed stores (`src/store.rs`):
`fetch_optional` on `where key = ?` is the first row matching the key
(`key` is the primary key); a missing row is `Ok(None)`; a present row is
deserialized (`serde_json::from_str`, modelled by the oracle `deser`), and
a parse failure becomes `Error::Deserialization`. -/
def kvGet {V : Type} (deser : String → Except String V)
    (rows : List (String × String)) (key : String) : Except KVError (Option V) :=
  match rows.find? (fun r => r.1 == key) with
  | none => .ok none
  | some (_, v) =>
    match deser v with
    | .ok value => .ok (some value)
    | .error e => .error (.deserializationError e)

/-! ## Theorems -/

/-- The boolean validator agrees with the spec's wording of a valid
table identity. -/
theorem is_valid_table_name_iff (name : String) :
    is_valid_table_name name = true ↔ validIdentitySpec name := by
  obtain ⟨data⟩ := name
  cases data with
  | nil => simp [is_valid_table_name, validIdentitySpec]
  | cons first rest =>
    simp [is_valid_table_name, validIdentitySpec, List.all_eq_true]

/-- Claim C3: constructing a status feed store with a table identity
succeeds if and only if the identity is non-empty, its first character is
alphabetic and every remaining character is alphanumeric or underscore;
any other identity fails construction with `InvalidTableName`.  Queries
are functions of a constructed `StatusStore` value, so no query is ever
issued for a rejected identity. -/
theorem statusstore_new_validates (name : String) :
    ((∃ s, StatusStore.new name = .ok s) ↔ validIdentitySpec name) ∧
    (¬ validIdentitySpec name →
      StatusStore.new name = .error (.invalidTableName name)) := by
  have hiff := is_valid_table_name_iff name
  by_cases hv : is_valid_table_name name = true
  · exact ⟨⟨fun _ => hiff.mp hv, fun _ => ⟨⟨name⟩, by simp [StatusStore.new, hv]⟩⟩,
      fun hn => absurd (hiff.mp hv) hn⟩
  · have hv' : is_valid_table_name name = false := by
      simpa [Bool.not_eq_true] using hv
    refine ⟨⟨?_, fun hs => absurd (hiff.mpr hs) hv⟩, fun _ => ?_⟩
    · rintro ⟨s, hs⟩
      simp [StatusStore.new, hv'] at hs
    · simp [StatusStore.new, hv']

/-- Claim C3 witness: an identity starting with a digit and containing a
space is rejected with `InvalidTableName`; the identity `status` is
accepted. -/
theorem statusstore_new_validates_witness :
    StatusStore.new "1bad name" = .error (.invalidTableName "1bad name") ∧
    (∃ s, StatusStore.new "status" = .ok s) :=
  ⟨(statusstore_new_validates "1bad name").2
      (fun h => absurd ((is_valid_table_name_iff "1bad name").mpr h) (by decide)),
   ((statusstore_new_validates "status").1).mpr
      ((is_valid_table_name_iff "status").mp (by decide))⟩

/-- Inserting a status leaves the list of `uri` keys without duplicates:
the conflict branch rewrites one row in place (same `uri`), the append
branch adds a fresh `uri`. -/
theorem insertStatus_nodup (t : List Status) (s : Status)
    (hnd : (t.map (fun r => r.uri)).Nodup) :
    ((insertStatus t s).map (fun r => r.uri)).Nodup := by
  unfold insertStatus
  split
  · rw [List.map_map]
    have heq : List.map ((fun r => r.uri) ∘ fun r => if r.uri == s.uri then s else r) t
        = t.map (fun r => r.uri) := by
      apply List.map_congr_left
      intro r _
      by_cases hb : (r.uri == s.uri) = true
      · have : r.uri = s.uri := by simpa using hb
        simp [Function.comp, hb, this]
      · simp [Function.comp, hb]
    rw [heq]
    exact hnd
  · rename_i hany
    rw [List.map_append, List.nodup_append]
    refine ⟨hnd, by simp, ?_⟩
    intro x hx hx'
    simp only [List.map_cons, List.map_nil, List.mem_singleton] at hx'
    subst hx'
    rcases List.mem_map.mp hx with ⟨r, hr, hru⟩
    exact hany (List.any_eq_true.mpr ⟨r, hr, by simp [hru]⟩)

/-- Replacing the conflicting row: filtering the rewritten table by the
inserted `uri` yields exactly the inserted row, provided the `uri` column
had no duplicates and the conflict really occurred. -/
theorem filter_map_replace_self (t : List Status) (s : Status)
    (hnd : (t.map (fun r => r.uri)).Nodup)
    (hany : t.any (fun r => r.uri == s.uri) = true) :
    (t.map (fun r => if r.uri == s.uri then s else r)).filter
      (fun r => r.uri == s.uri) = [s] := by
  induction t with
  | nil => simp at hany
  | cons r t ih =>
    rw [List.map_cons, List.nodup_cons] at hnd
    rw [List.map_cons]
    by_cases hb : (r.uri == s.uri) = true
    · have hru : r.uri = s.uri := by simpa using hb
      rw [if_pos hb, List.filter_cons_of_pos (by simp)]
      have hrest : (t.map (fun x => if x.uri == s.uri then s else x)).filter
          (fun x => x.uri == s.uri) = [] := by
        rw [List.filter_eq_nil_iff]
        intro a ha
        rcases List.mem_map.mp ha with ⟨x, hx, hxa⟩
        have hxs : (x.uri == s.uri) = false := by
          rcases Bool.eq_false_or_eq_true (x.uri == s.uri) with h | h
          · have : x.uri = s.uri := by simpa using h
            exact absurd (List.mem_map.mpr ⟨x, hx, by rw [this, ← hru]⟩) hnd.1
          · exact h
        rw [if_neg (by simp [hxs])] at hxa
        subst hxa
        simp [hxs]
      rw [hrest]
    · have hb' : (r.uri == s.uri) = false := by simpa using hb
      have hany' : t.any (fun x => x.uri == s.uri) = true := by
        rcases List.any_eq_true.mp hany with ⟨x, hx, hpx⟩
        rcases List.mem_cons.mp hx with h | h
        · subst h; exact absurd hpx hb
        · exact List.any_eq_true.mpr ⟨x, h, hpx⟩
      rw [if_neg hb, List.filter_cons, if_neg (by simp [hb'])]
      exact ih hnd.2 hany'

/-- Inserting a status and then filtering by its own `uri` yields exactly
that row: the upsert leaves one row holding the inserted payload. -/
theorem insertStatus_filter_self (t : List Status) (s : Status)
    (hnd : (t.map (fun r => r.uri)).Nodup) :
    (insertStatus t s).filter (fun r => r.uri == s.uri) = [s] := by
  unfold insertStatus
  split
  · exact filter_map_replace_self t s hnd (by assumption)
  · rename_i hany
    have hnil : t.filter (fun r => r.uri == s.uri) = [] := by
      rw [List.filter_eq_nil_iff]
      intro a ha hpa
      exact hany (List.any_eq_true.mpr ⟨a, ha, hpa⟩)
    rw [List.filter_append, hnil]
    simp

/-- Rewriting the conflicting row does not change the rows for any other
`uri`. -/
theorem filter_map_replace_ne (t : List Status) (s : Status) (u : String)
    (hne : (s.uri == u) = false) :
    (t.map (fun r => if r.uri == s.uri then s else r)).filter (fun r => r.uri == u)
      = t.filter (fun r => r.uri == u) := by
  induction t with
  | nil => rfl
  | cons r t ih =>
    rw [List.map_cons]
    by_cases hb : (r.uri == s.uri) = true
    · have hru : r.uri = s.uri := by simpa using hb
      have hpr : (r.uri == u) = false := by rw [hru]; exact hne
      rw [if_pos hb, List.filter_cons, if_neg (by simp [hne]),
        List.filter_cons, if_neg (by simp [hpr]), ih]
    · rw [if_neg hb, List.filter_cons, List.filter_cons, ih]

/-- Filtering by a `uri` different from the inserted one is unaffected by
the insert. -/
theorem insertStatus_filter_ne (t : List Status) (s : Status) (u : String)
    (hne : (s.uri == u) = false) :
    (insertStatus t s).filter (fun r => r.uri == u)
      = t.filter (fun r => r.uri == u) := by
  unfold insertStatus
  split
  · exact filter_map_replace_ne t s u hne
  · rw [List.filter_append, List.filter_cons, if_neg (by simp [hne])]
    simp

/-- Folding a sequence of inserts: the rows for each `uri` are exactly the
latest insert for that `uri` (searched from the most recent), defaulting
to the starting table's rows for that `uri`. -/
theorem foldl_insert_filter (ops : List Status) (t : List Status) (u : String)
    (hnd : (t.map (fun r => r.uri)).Nodup) :
    (ops.foldl insertStatus t).filter (fun r => r.uri == u)
      = match ops.reverse.find? (fun r => r.uri == u) with
        | some s => [s]
        | none => t.filter (fun r => r.uri == u) := by
  induction ops generalizing t with
  | nil => simp
  | cons a ops ih =>
    rw [List.foldl_cons, ih (insertStatus t a) (insertStatus_nodup t a hnd),
      List.reverse_cons, List.find?_append]
    cases hfind : ops.reverse.find? (fun r => r.uri == u) with
    | some s => simp [Option.or]
    | none =>
      by_cases ha : (a.uri == u) = true
      · have hu : a.uri = u := by simpa using ha
        subst hu
        rw [List.find?_cons_of_pos _ (by simp), Option.or]
        exact insertStatus_filter_self t a hnd
      · have ha' : (a.uri == u) = false := by simpa using ha
        rw [List.find?_cons_of_neg _ (by simp [ha']), List.find?_nil, Option.or]
        exact insertStatus_filter_ne t a u ha'

/-- The `uri` column of a table built by a sequence of inserts from the
empty table has no duplicates. -/
theorem foldl_insert_nodup (ops : List Status) (t : List Status)
    (hnd : (t.map (fun r => r.uri)).Nodup) :
    ((ops.foldl insertStatus t).map (fun r => r.uri)).Nodup := by
  induction ops generalizing t with
  | nil => exact hnd
  | cons a ops ih => exact List.foldl_cons _ _ ▸ ih _ (insertStatus_nodup t a hnd)

/-- Claim C1: inserting a status whose `uri` equals an already-stored
status's `uri` replaces that row entirely, so after any sequence of
inserts the table has exactly one row per `uri` — its `uri` column has no
duplicates, and the rows matching any `uri` are exactly the payload of
the last insert for that `uri` (the first match searching the insert
sequence from the most recent). -/
theorem insert_last_write_wins (ops : List Status) (u : String) :
    ((ops.foldl insertStatus []).map (fun r => r.uri)).Nodup ∧
    (ops.foldl insertStatus []).filter (fun r => r.uri == u)
      = (ops.reverse.find? (fun r => r.uri == u)).toList := by
  refine ⟨foldl_insert_nodup ops [] (by simp), ?_⟩
  rw [foldl_insert_filter ops [] u (by simp)]
  cases ops.reverse.find? (fun r => r.uri == u) <;> simp

/-- Claim C8: for every status, the date selected for display equals
`min(created_at, indexed_at)`: it is `created_at` when `created_at` is
strictly earlier than `indexed_at`, and `indexed_at` otherwise, so the
displayed date is never later than the indexing time. -/
theorem choose_date_is_min (created_at indexed_at : Nat) :
    choose_date created_at indexed_at = min created_at indexed_at ∧
    (created_at < indexed_at → choose_date created_at indexed_at = created_at) ∧
    (¬ created_at < indexed_at → choose_date created_at indexed_at = indexed_at) ∧
    choose_date created_at indexed_at ≤ indexed_at := by
  unfold choose_date
  refine ⟨?_, ?_, ?_, ?_⟩ <;> first
    | (intro h; simp [h])
    | (split <;> omega)

/-- Claim C8 witness at `created_at = 5`, `indexed_at = 3`. -/
theorem choose_date_is_min_witness :
    choose_date 5 3 = min 5 3 ∧
    (5 < 3 → choose_date 5 3 = 5) ∧
    (¬ 5 < 3 → choose_date 5 3 = 3) ∧
    choose_date 5 3 ≤ 3 :=
  choose_date_is_min 5 3

/-- Claim C4: the publish operation performs the remote create-record call
strictly before the local mirror insert: when the remote call fails the
whole operation fails with that error and the status table is unchanged
(nothing is mirrored); when it succeeds the mirrored row is built from the
remote call's canonical uri, so the insert depends on the remote result. -/
theorem post_status_remote_first (did statusText : String) (e : RemoteError)
    (createdNow indexedNow : Nat) (table : List Status) :
    post_status (some did) (.error e) statusText createdNow indexedNow table
      = (.failed e, table) ∧
    (∀ uri, post_status (some did) (.ok uri) statusText createdNow indexedNow table
      = (.redirectHome,
          insertStatus table
            { uri := uri, author_did := did, status := statusText,
              created_at := createdNow, indexed_at := indexedNow })) := by
  exact ⟨rfl, fun _ => rfl⟩

/-- Claim C5: session restore returns anonymous (not an error) both when
the local session handle has no bound identity and when the bound identity
has no remembered provider session (`SessionRegistry` failure); exactly
the remaining remote failures are propagated to the caller as errors. -/
theorem session_agent_semantics (restore : String → RestoreOutcome) (did m : String) :
    session_agent none restore = .anonymous ∧
    (∀ e, restore did = .sessionRegistryError e →
      session_agent (some did) restore = .anonymous) ∧
    (session_agent (some did) restore = .err m ↔ restore did = .otherError m) := by
  refine ⟨rfl, fun e he => by simp [session_agent, he], ?_⟩
  unfold session_agent
  cases h : restore did <;> simp [h]

/-- Claim C5 witness: a bound identity whose provider session is not
remembered restores to anonymous. -/
theorem session_agent_semantics_witness :
    session_agent (some "did:plc:alice") (fun _ => .sessionRegistryError "expired")
      = .anonymous :=
  (session_agent_semantics (fun _ => .sessionRegistryError "expired")
    "did:plc:alice" "m").2.1 "expired" rfl

/-- Claim C6: binding an identity to a local session handle that is
already bound fails with the distinct `SessionAlreadyExists` conflict and
leaves the existing binding unchanged; the resulting binding is always
either the unchanged previous one or a first binding of a previously
unbound handle, so at most one identity is ever bound per handle. -/
theorem oauth_callback_conflict (did existing : String) (cs : Option String) :
    oauth_callback (some did) (some existing)
      = (.errSessionAlreadyExists, some existing) ∧
    oauth_callback (some did) none = (.redirectRoot, some did) ∧
    ((oauth_callback (some did) cs).2 = cs ∨ cs = none) := by
  refine ⟨rfl, rfl, ?_⟩
  cases cs
  · exact Or.inr rfl
  · exact Or.inl rfl

/-- Claim C9: the keyed store's `get` returns an explicit absent result
(`Ok(None)`, not an error) when no row exists for the key, and a
`Deserialization` error — a value distinct from the not-found result —
when a row exists but its stored blob fails to parse. -/
theorem kv_get_absent_and_deser {V : Type} (deser : String → Except String V)
    (rows : List (String × String)) (key k v e : String) :
    (rows.find? (fun r => r.1 == key) = none → kvGet deser rows key = .ok none) ∧
    (rows.find? (fun r => r.1 == key) = some (k, v) → deser v = .error e →
      kvGet deser rows key = .error (.deserializationError e)) ∧
    (Except.error (KVError.deserializationError e)
      ≠ (Except.ok none : Except KVError (Option V))) := by
  refine ⟨fun h => by simp [kvGet, h], fun h hv => by simp [kvGet, h, hv], by simp⟩

/-- Claim C9 witness: an empty table yields `Ok(None)`; a row whose blob
does not parse yields a `Deserialization` error. -/
theorem kv_get_absent_and_deser_witness :
    kvGet (fun s => if s = "1" then Except.ok 1 else Except.error "bad json")
      ([] : List (String × String)) "k" = .ok none ∧
    kvGet (fun s => if s = "1" then Except.ok (1 : Nat) else Except.error "bad json")
      [("k", "x")] "k" = .error (.deserializationError "bad json") :=
  ⟨(kv_get_absent_and_deser (fun s => if s = "1" then Except.ok 1 else Except.error "bad json")
      [] "k" "k" "x" "bad json").1 rfl,
   (kv_get_absent_and_deser (fun s => if s = "1" then Except.ok (1 : Nat) else Except.error "bad json")
      [("k", "x")] "k" "k" "x" "bad json").2.1 (by decide) rfl⟩

/-- Claim C7: for every commit event of the watched collection, the
transform produces a status whose uri is `at://` + authority + `/` +
collection + `/` + record-key, whose author is the event's authority,
whose `created_at` is taken from the record payload and whose
`indexed_at` is stamped at transform time; an event with a malformed
author identity yields an `InvalidDid` error, no status is inserted for
it, and the (logging) message loop continues with the table unchanged. -/
theorem ingester_transform (didValid : String → Bool) (now : Nat)
    (e : FlattenedCommitEvent) (table : List Status) :
    (didValid e.did = true →
      consume didValid now e table = .ok (insertStatus table
        { uri := "at://" ++ e.did ++ "/" ++ e.collection ++ "/" ++ e.rkey,
          author_did := e.did, status := e.record.status,
          created_at := e.record.created_at, indexed_at := now })) ∧
    (didValid e.did = false →
      statusTryFrom didValid now e = .error (.invalidDid e.did) ∧
      consume didValid now e table = .error (.invalidDid e.did) ∧
      messageLoopStep didValid now e table = table) := by
  constructor
  · intro h
    simp [consume, statusTryFrom, h]
  · intro h
    simp [messageLoopStep, consume, statusTryFrom, h]

/-- Claim C7 witness: a well-formed event is transformed and inserted; a
malformed author identity is rejected and the loop leaves the table
unchanged. -/
theorem ingester_transform_witness :
    consume (fun s => s ≠ "") 7
      { did := "did:plc:alice", collection := "xyz.statusphere.status", rkey := "3k",
        record := { status := "🚀", created_at := 4 } } []
      = .ok [{ uri := "at://did:plc:alice/xyz.statusphere.status/3k",
               author_did := "did:plc:alice", status := "🚀",
               created_at := 4, indexed_at := 7 }] ∧
    messageLoopStep (fun s => s ≠ "") 7
      { did := "", collection := "xyz.statusphere.status", rkey := "3k",
        record := { status := "🚀", created_at := 4 } } [] = [] :=
  ⟨(ingester_transform (fun s => s ≠ "") 7
      { did := "did:plc:alice", collection := "xyz.statusphere.status", rkey := "3k",
        record := { status := "🚀", created_at := 4 } } []).1 (by decide),
   ((ingester_transform (fun s => s ≠ "") 7
      { did := "", collection := "xyz.statusphere.status", rkey := "3k",
        record := { status := "🚀", created_at := 4 } } []).2 (by decide)).2.2⟩

/-- `statusLE` is transitive. -/
theorem statusLE_trans (a b c : Status) (hab : statusLE a b = true)
    (hbc : statusLE b c = true) : statusLE a c = true := by
  simp only [statusLE, decide_eq_true_eq] at *
  omega

/-- `statusLE` is total. -/
theorem statusLE_total (a b : Status) : (statusLE a b || statusLE b a) = true := by
  simp only [statusLE, Bool.or_eq_true, decide_eq_true_eq]
  omega

/-- The empty where clause built for `author = None` keeps every row. -/
theorem filter_where_none (table : List Status) :
    table.filter (evalWhereClause (buildWhereClause none)) = table := by
  have h : evalWhereClause (buildWhereClause none) = fun _ => true :=
    funext fun s => rfl
  rw [h, List.filter_true]

/-- Claim C2: on a table whose statuses have pairwise distinct
`indexed_at` values, `fetch(None, N)` returns `min N |table|` statuses in
strictly decreasing `indexed_at` order, all drawn from the table, and they
are the `N` most recent: every table row not returned has a strictly
smaller `indexed_at` than every returned row. -/
theorem fetch_none_most_recent (table : List Status) (n : Nat)
    (hnd : (table.map (fun s => s.indexed_at)).Nodup) :
    (fetch table none n).length = min n table.length ∧
    List.Pairwise (fun a b => b.indexed_at < a.indexed_at) (fetch table none n) ∧
    (∀ s ∈ fetch table none n, s ∈ table) ∧
    (∀ s ∈ table, s ∉ fetch table none n →
      ∀ r ∈ fetch table none n, s.indexed_at < r.indexed_at) := by
  have hdef : fetch table none n = (table.mergeSort statusLE).take n := by
    unfold fetch
    rw [filter_where_none]
  have hperm : (table.mergeSort statusLE).Perm table :=
    List.mergeSort_perm table statusLE
  have hsorted : List.Pairwise (fun a b => statusLE a b = true)
      (table.mergeSort statusLE) :=
    List.sorted_mergeSort statusLE_trans statusLE_total table
  have hnds : ((table.mergeSort statusLE).map (fun s => s.indexed_at)).Nodup :=
    ((hperm.map (fun s => s.indexed_at)).nodup_iff).mpr hnd
  have hne : List.Pairwise (fun a b => a.indexed_at ≠ b.indexed_at)
      (table.mergeSort statusLE) := List.pairwise_map.mp hnds
  have hstrict : List.Pairwise (fun a b => b.indexed_at < a.indexed_at)
      (table.mergeSort statusLE) := by
    refine (hsorted.and hne).imp ?_
    rintro a b ⟨h1, h2⟩
    simp only [statusLE, decide_eq_true_eq] at h1
    omega
  refine ⟨?_, ?_, ?_, ?_⟩
  · rw [hdef, List.length_take, hperm.length_eq]
  · rw [hdef]
    exact List.Pairwise.sublist (List.take_sublist n _) hstrict
  · intro s hs
    rw [hdef] at hs
    exact hperm.mem_iff.mp (List.mem_of_mem_take hs)
  · intro s hs hns r hr
    rw [hdef] at hns hr
    have hsm : s ∈ (table.mergeSort statusLE).take n
        ++ (table.mergeSort statusLE).drop n := by
      rw [List.take_append_drop]
      exact hperm.mem_iff.mpr hs
    have hsd : s ∈ (table.mergeSort statusLE).drop n := by
      rcases List.mem_append.mp hsm with h | h
      · exact absurd h hns
      · exact h
    have hsplit := hstrict
    rw [← List.take_append_drop n (table.mergeSort statusLE)] at hsplit
    exact (List.pairwise_append.mp hsplit).2.2 r hr s hsd

/-- Claim C2 witness: a two-row table with distinct `indexed_at` values,
truncated to one row. -/
theorem fetch_none_most_recent_witness :
    (fetch [{ uri := "u1", author_did := "a", status := "x",
              created_at := 1, indexed_at := 1 },
            { uri := "u2", author_did := "a", status := "y",
              created_at := 2, indexed_at := 2 }] none 1).length
      = min 1 ([{ uri := "u1", author_did := "a", status := "x",
                  created_at := 1, indexed_at := 1 },
                { uri := "u2", author_did := "a", status := "y",
                  created_at := 2, indexed_at := 2 }] : List Status).length ∧
    List.Pairwise (fun a b => b.indexed_at < a.indexed_at)
      (fetch [{ uri := "u1", author_did := "a", status := "x",
                created_at := 1, indexed_at := 1 },
              { uri := "u2", author_did := "a", status := "y",
                created_at := 2, indexed_at := 2 }] none 1) ∧
    (∀ s ∈ fetch [{ uri := "u1", author_did := "a", status := "x",
                    created_at := 1, indexed_at := 1 },
                  { uri := "u2", author_did := "a", status := "y",
                    created_at := 2, indexed_at := 2 }] none 1,
      s ∈ [{ uri := "u1", author_did := "a", status := "x",
             created_at := 1, indexed_at := 1 },
           { uri := "u2", author_did := "a", status := "y",
             created_at := 2, indexed_at := 2 }]) ∧
    (∀ s ∈ [({ uri := "u1", author_did := "a", status := "x",
               created_at := 1, indexed_at := 1 } : Status),
            { uri := "u2", author_did := "a", status := "y",
              created_at := 2, indexed_at := 2 }],
      s ∉ fetch [{ uri := "u1", author_did := "a", status := "x",
                   created_at := 1, indexed_at := 1 },
                 { uri := "u2", author_did := "a", status := "y",
                   created_at := 2, indexed_at := 2 }] none 1 →
      ∀ r ∈ fetch [{ uri := "u1", author_did := "a", status := "x",
                     created_at := 1, indexed_at := 1 },
                   { uri := "u2", author_did := "a", status := "y",
                     created_at := 2, indexed_at := 2 }] none 1,
        s.indexed_at < r.indexed_at) :=
  fetch_none_most_recent
    [{ uri := "u1", author_did := "a", status := "x",
       created_at := 1, indexed_at := 1 },
     { uri := "u2", author_did := "a", status := "y",
       created_at := 2, indexed_at := 2 }] 1 (by decide)

/-- Dropping the run of non-quote characters of `f` lands on the quote
that follows it. -/
theorem dropWhile_quote_of_clean (f l : List Char)
    (hf : ∀ c ∈ f, (c != '"') = true) :
    (f ++ '"' :: l).dropWhile (fun c => c != '"') = '"' :: l := by
  induction f with
  | nil =>
    rw [List.nil_append]
    exact List.dropWhile_cons_of_neg (by simp)
  | cons c f ih =>
    rw [List.cons_append,
      @List.dropWhile_cons_of_pos Char (fun x => x != '"') c (f ++ '"' :: l)
        (hf c (by simp))]
    exact ih fun c hc => hf c (by simp [hc])

/-- Taking the run of non-quote characters before a final quote recovers
exactly the quote-free list. -/
theorem takeWhile_quote_of_clean (a : List Char)
    (ha : ∀ c ∈ a, (c != '"') = true) :
    (a ++ ['"']).takeWhile (fun c => c != '"') = a := by
  induction a with
  | nil =>
    rw [List.nil_append]
    exact List.takeWhile_cons_of_neg (by simp)
  | cons c a ih =>
    rw [List.cons_append,
      @List.takeWhile_cons_of_pos Char (fun x => x != '"') c (a ++ ['"'])
        (ha c (by simp)),
      ih fun c hc => ha c (by simp [hc])]

/-- Reading back the built where clause recovers the interpolated author
verbatim, provided the author contains no double-quote character. -/
theorem extractQuoted_roundtrip (author : String) (h : '"' ∉ author.data) :
    extractQuoted (buildWhereClause (some author)) = some author := by
  have hclean : ∀ c ∈ author.data, (c != '"') = true := by
    intro c hc
    simp only [bne_iff_ne, ne_eq]
    intro hq
    exact h (hq ▸ hc)
  obtain ⟨d⟩ := author
  have hdata : (buildWhereClause (some (String.mk d))).data
      = ['w', 'h', 'e', 'r', 'e', ' ', 'a', 'u', 't', 'h', 'o', 'r', '_', 'd',
         'i', 'd', ' ', '=', ' '] ++ '"' :: (d ++ ['"']) := by
    show (("where author_did = \"" : String) ++ String.mk d ++ "\"").data = _
    rw [String.data_append, String.data_append]
    show ("where author_did = \"" : String).data ++ d ++ ['"'] = _
    rw [show ("where author_did = \"" : String).data
        = ['w', 'h', 'e', 'r', 'e', ' ', 'a', 'u', 't', 'h', 'o', 'r', '_', 'd',
           'i', 'd', ' ', '=', ' '] ++ ['"'] from rfl]
    simp [List.append_assoc]
  unfold extractQuoted
  rw [hdata,
    dropWhile_quote_of_clean
      ['w', 'h', 'e', 'r', 'e', ' ', 'a', 'u', 't', 'h', 'o', 'r', '_', 'd',
       'i', 'd', ' ', '=', ' '] (d ++ ['"']) (by decide),
    List.drop_one, List.tail_cons,
    show (['"'] : List Char) = '"' :: [] from rfl,
    dropWhile_quote_of_clean d [] hclean, if_pos rfl,
    show ('"' : Char) :: [] = (['"'] : List Char) from rfl,
    takeWhile_quote_of_clean d hclean]

/-- The where clause built for a present author is never the empty
clause. -/
theorem buildWhereClause_some_ne_empty (author : String) :
    ¬ buildWhereClause (some author) = "" := by
  intro h
  have := congrArg String.data h
  rw [buildWhereClause, String.data_append, String.data_append] at this
  simp at this

/-- The built where clause filters rows by equality of `author_did` with
the interpolated author, provided the author contains no double quote. -/
theorem evalWhereClause_author (author : String) (h : '"' ∉ author.data)
    (s : Status) :
    evalWhereClause (buildWhereClause (some author)) s
      = (s.author_did == author) := by
  unfold evalWhereClause
  rw [if_neg (buildWhereClause_some_ne_empty author), extractQuoted_roundtrip author h]

/-- Claim C10: the author-filtered fetch interpolates the author identity
directly into the SQL text inside double quotes (it is not bound as a
parameter), and consequently, for every author string containing no
double-quote character, `fetch(Some(author), n)` returns only statuses
whose `author_did` equals that string — a guarantee conditional on that
precondition. -/
theorem fetch_author_interpolated (author : String) (table : List Status)
    (n : Nat) (h : '"' ∉ author.data) :
    buildWhereClause (some author) = "where author_did = \"" ++ author ++ "\"" ∧
    ∀ s ∈ fetch table (some author) n, s.author_did = author := by
  refine ⟨rfl, ?_⟩
  intro s hs
  unfold fetch at hs
  have hmem := (List.mergeSort_perm _ statusLE).mem_iff.mp (List.mem_of_mem_take hs)
  have hfil := (List.mem_filter.mp hmem).2
  rw [evalWhereClause_author author h s] at hfil
  simpa using hfil

/-- Claim C10 witness: fetching with author `did:plc:alice` on a two-row
table returns only rows authored by `did:plc:alice`. -/
theorem fetch_author_interpolated_witness :
    buildWhereClause (some "did:plc:alice")
      = "where author_did = \"" ++ "did:plc:alice" ++ "\"" ∧
    ∀ s ∈ fetch [{ uri := "u1", author_did := "did:plc:alice", status := "x",
                   created_at := 1, indexed_at := 1 },
                 { uri := "u2", author_did := "did:plc:bob", status := "y",
                   created_at := 2, indexed_at := 2 }] (some "did:plc:alice") 10,
      s.author_did = "did:plc:alice" :=
  fetch_author_interpolated "did:plc:alice"
    [{ uri := "u1", author_did := "did:plc:alice", status := "x",
       created_at := 1, indexed_at := 1 },
     { uri := "u2", author_did := "did:plc:bob", status := "y",
       created_at := 2, indexed_at := 2 }] 10 (by decide)

end Statusphere
